import Mathlib

/-!
# Black-Scholes batch pricer (`blackscholes.cpp`)

A shallow embedding of the three parts of the program:

* `CNDF`, the polynomial approximation of the cumulative normal distribution,
* `BlkSchlsEqEuroNoDiv`, the closed-form European option pricer,
* `main`, the driver: tiling of the seed table, the pricing loops and the `ERR_CHK`
  validation.

The source fixes its arithmetic through the preprocessor constant `fptype`.  The embedding keeps
that parameter: every definition is written over an ordered field `fptype` together with the three
`<cmath>` functions the program calls (`CMath`).  The analytic theorems instantiate `fptype` with
the real numbers (`realMath`), i.e. they describe the program under exact arithmetic; rounding of
IEEE single precision is outside the model.

The accuracy of `CNDF` is measured against `Phi`, the distribution function of the standard
Gaussian measure; the seed table `optionData.txt` is a parameter of the driver.
-/

namespace BlackScholes

/-! ## Data model -/

/-- The `<cmath>` functions used by the program, at precision `fptype`. -/
structure CMath (fptype : Type) where
  /-- The function `exp`. -/
  exp : fptype → fptype
  /-- The function `log`. -/
  log : fptype → fptype
  /-- The function `sqrt`. -/
  sqrt : fptype → fptype

/-- The record `OptionData` of the source (lines 16-28), field for field. -/
structure OptionData (fptype : Type) where
  /-- Spot price. -/
  s : fptype
  /-- Strike price. -/
  strike : fptype
  /-- Risk-free interest rate. -/
  r : fptype
  /-- Dividend rate. -/
  divq : fptype
  /-- Volatility. -/
  v : fptype
  /-- Time to maturity in years. -/
  t : fptype
  /-- Option type, the character P for a put and C for a call. -/
  OptionType : Char
  /-- Dividend values. -/
  divs : fptype
  /-- DerivaGem reference value. -/
  DGrefval : fptype

/-- One line printed by the `printf` of the error check (lines 205-206): the arguments
`j`, `price`, `optionData[i].DGrefval`, `priceDelta`, in that order. -/
structure Diag (fptype : Type) where
  /-- The repetition index `j`. -/
  j : Nat
  /-- The computed price. -/
  Computed : fptype
  /-- The reference price. -/
  Ref : fptype
  /-- The value of `priceDelta`. -/
  Delta : fptype

/-- The memory the driver works on: the global seed table `data_init`, the heap array
`optionData`, and the lines written to standard output so far.  The field `calls` is a ghost log
of the invocations of the pricer, as pairs (record index `i`, repetition `j`), in the order in
which they happen. -/
structure State (fptype : Type) where
  /-- The global table `data_init`. -/
  data_init : List (OptionData fptype)
  /-- The array `optionData` allocated by `main`. -/
  optionData : List (OptionData fptype)
  /-- Ghost log of pricer invocations. -/
  calls : List (Nat × Nat)
  /-- The diagnostics printed so far. -/
  stdout : List (Diag fptype)

/-! ## The numeric kernel -/

section Kernel

variable {fptype : Type} [LinearOrderedField fptype]

/-- The constant `inv_sqrt_2xPI` (line 38). -/
def inv_sqrt_2xPI : fptype := 0.39894228040143270286

/-- The function `CNDF` (lines 40-101), statement by statement; a reassigned variable becomes a
shadowing `let`. -/
def CNDF (m : CMath fptype) (InputX : fptype) : fptype :=
  -- Check for negative value of InputX
  let sign : Bool := decide (InputX < 0.0)
  let InputX := if InputX < 0.0 then -InputX else InputX
  let xInput := InputX
  -- Compute NPrimeX term
  let expValues := m.exp (-0.5 * InputX * InputX)
  let xNPrimeofX := expValues
  let xNPrimeofX := xNPrimeofX * inv_sqrt_2xPI
  let xK2 := 0.2316419 * xInput
  let xK2 := 1.0 + xK2
  let xK2 := 1.0 / xK2
  let xK2_2 := xK2 * xK2
  let xK2_3 := xK2_2 * xK2
  let xK2_4 := xK2_3 * xK2
  let xK2_5 := xK2_4 * xK2
  let xLocal_1 := xK2 * 0.319381530
  let xLocal_2 := xK2_2 * (-0.356563782)
  let xLocal_3 := xK2_3 * 1.781477937
  let xLocal_2 := xLocal_2 + xLocal_3
  let xLocal_3 := xK2_4 * (-1.821255978)
  let xLocal_2 := xLocal_2 + xLocal_3
  let xLocal_3 := xK2_5 * 1.330274429
  let xLocal_2 := xLocal_2 + xLocal_3
  let xLocal_1 := xLocal_2 + xLocal_1
  let xLocal := xLocal_1 * xNPrimeofX
  let xLocal := 1.0 - xLocal
  let OutputX := xLocal
  if sign then 1.0 - OutputX else OutputX

/-- The function `BlkSchlsEqEuroNoDiv` (lines 105-174), statement by statement.  The last
parameter `timet` is received and never read, as in the source; the locals `xStockPrice` and
`xStrikePrice`, which the source assigns and never reads, are left out. -/
def BlkSchlsEqEuroNoDiv (m : CMath fptype) (sptprice strike rate volatility time : fptype)
    (otype : Int) (_timet : fptype) : fptype :=
  let xRiskFreeRate := rate
  let xVolatility := volatility
  let xTime := time
  let xSqrtTime := m.sqrt xTime
  let logValues := m.log (sptprice / strike)
  let xLogTerm := logValues
  let xPowerTerm := xVolatility * xVolatility
  let xPowerTerm := xPowerTerm * 0.5
  let xDen := xVolatility * xSqrtTime
  let xD1 := xRiskFreeRate + xPowerTerm
  let xD1 := xD1 * xTime
  let xD1 := xD1 + xLogTerm
  let xD1 := xD1 / xDen
  let xD2 := xD1 - xDen
  let d1 := xD1
  let d2 := xD2
  let NofXd1 := CNDF m d1
  let NofXd2 := CNDF m d2
  let FutureValueX := strike * m.exp (-(rate) * (time))
  if otype = 0 then
    (sptprice * NofXd1) - (FutureValueX * NofXd2)
  else
    let NegNofXd1 := 1.0 - NofXd1
    let NegNofXd2 := 1.0 - NofXd2
    (FutureValueX * NegNofXd2) - (sptprice * NegNofXd1)

end Kernel

/-! ## The driver -/

/-- The constant `OptionDataCount` (line 14). -/
def OptionDataCount : Nat := 10000000

/-- The constant `NUM_RUNS` (line 12). -/
def NUM_RUNS : Nat := 1

/-- The loop `for (int i = i0; i < i0 + k; i++) body`: `forLoop body i0 k st` runs `body` at the
counter values `i0, i0 + 1, ..., i0 + k - 1`, threading the state, and stops at the first
iteration that fails.  The loops of `main` start at `0` with `k` the loop bound.  The counters are
natural numbers: the bounds of the source are `int` constants, so no counter overflows. -/
def forLoop {σ : Type} (body : Nat → σ → Option σ) : Nat → Nat → σ → Option σ
  | _, 0, st => some st
  | i, k + 1, st =>
    match body i st with
    | none => none
    | some st1 => forLoop body (i + 1) k st1

section Driver

variable {fptype : Type}

/-- The memory after `new OptionData[n]` (line 184): the seed table as given, an array of `n`
records of unspecified contents (slot `i` holds `junk i`), and nothing printed yet. -/
def allocate (data_init : List (OptionData fptype)) (n : Nat) (junk : Nat → OptionData fptype) :
    State fptype :=
  { data_init := data_init, optionData := (List.range n).map junk, calls := [], stdout := [] }

/-- The statement `optionData[i] = data_init[i % initOptionNum]` (line 187), where
`initOptionNum` is the number of records of `data_init` (line 181).  A remainder by zero and an
access outside an array have no defined result. -/
def initBody (i : Nat) (st : State fptype) : Option (State fptype) :=
  let initOptionNum := st.data_init.length
  if initOptionNum = 0 then none
  else
    match st.data_init[i % initOptionNum]? with
    | none => none
    | some d =>
      if i < st.optionData.length then some { st with optionData := st.optionData.set i d }
      else none

/-- The initialisation loop of `main` (lines 186-187) for a target count `n`. -/
def expand (n : Nat) (st : State fptype) : Option (State fptype) :=
  forLoop initBody 0 n st

variable [LinearOrderedField fptype]

/-- The `ERR_CHK` block (lines 202-207): `out` is the output so far, the result is the output
after the block. -/
def errChk (j : Nat) (price DGrefval : fptype) (out : List (Diag fptype)) :
    List (Diag fptype) :=
  let priceDelta := DGrefval - price
  if |priceDelta| ≥ 1e-4 then
    out ++ [{ j := j, Computed := price, Ref := DGrefval, Delta := priceDelta }]
  else out

/-- The call of the pricer on one record (lines 197-200): five scalar fields, the option type
translated by `OptionType == 'P' ? 1 : 0`, and the constant `0` for `timet`. -/
def recordPrice (m : CMath fptype) (o : OptionData fptype) : fptype :=
  BlkSchlsEqEuroNoDiv m o.s o.strike o.r o.v o.t (if o.OptionType = 'P' then 1 else 0) 0

/-- The body of the inner loop of `main` (lines 197-208) for the record index `i` and the
repetition `j`. -/
def priceBody (m : CMath fptype) (i j : Nat) (st : State fptype) : Option (State fptype) :=
  match st.optionData[i]? with
  | none => none
  | some o =>
    let price := recordPrice m o
    some { st with
      calls := st.calls ++ [(i, j)]
      stdout := errChk j price o.DGrefval st.stdout }

/-- The processing loops of `main` (lines 193-210) for `n` records and `runs` repetitions:
the outer loop runs over the record index `i`, the inner loop over the repetition `j`. -/
def timedPass (m : CMath fptype) (n runs : Nat) (st : State fptype) : Option (State fptype) :=
  forLoop (fun i st1 => forLoop (priceBody m i) 0 runs st1) 0 n st

/-- The function `main` with the two constants as parameters: allocation, initialisation loop,
processing loops. -/
def mainWith (m : CMath fptype) (data_init : List (OptionData fptype))
    (junk : Nat → OptionData fptype) (n runs : Nat) : Option (State fptype) :=
  match expand n (allocate data_init n junk) with
  | none => none
  | some st => timedPass m n runs st

/-- The function `main` (lines 178-221) with the constants of the source. -/
def main (m : CMath fptype) (data_init : List (OptionData fptype))
    (junk : Nat → OptionData fptype) : Option (State fptype) :=
  mainWith m data_init junk OptionDataCount NUM_RUNS

/-- The outcome that section 4.3, step 4 of the specification assigns to the evaluation of the
record `o` at repetition `j`: with `delta = referencePrice - computedPrice`, a diagnostic with the
repetition index, the computed price, the reference price and `delta` if `abs(delta) >= 1e-4`,
and no diagnostic otherwise. -/
def specDiag (m : CMath fptype) (o : OptionData fptype) (j : Nat) : Option (Diag fptype) :=
  let computedPrice := recordPrice m o
  let delta := o.DGrefval - computedPrice
  if |delta| ≥ 1e-4 then
    some { j := j, Computed := computedPrice, Ref := o.DGrefval, Delta := delta }
  else none

end Driver

/-- A seed table of two records, for the concrete instances below. -/
def sampleSeed : List (OptionData ℚ) :=
  [ { s := 100, strike := 100, r := 0.05, divq := 0, v := 0.2, t := 1, OptionType := 'C',
      divs := 0, DGrefval := 10.4506 },
    { s := 42, strike := 40, r := 0.1, divq := 0, v := 0.2, t := 0.5, OptionType := 'P',
      divs := 0, DGrefval := 0.8086 } ]

/-- Contents of the freshly allocated slots, for the concrete instances below. -/
def sampleJunk (i : Nat) : OptionData ℚ :=
  { s := i, strike := 0, r := 0, divq := 0, v := 0, t := 0, OptionType := 'X', divs := 0,
    DGrefval := 0 }

/-- Exact arithmetic: `fptype` is the real numbers and the library functions are the real
exponential, logarithm and square root. -/
noncomputable def realMath : CMath ℝ where
  exp := Real.exp
  log := Real.log
  sqrt := Real.sqrt

/-- The expression of the specification, section 4.1, for a non-negative argument `x` and a given
value `density` of the normal density at `x`: one minus the density times the degree-5 polynomial
in `k = 1 / (1 + 0.2316419 * x)`. -/
noncomputable def specCNDF (density x : ℝ) : ℝ :=
  let k := 1 / (1 + 0.2316419 * x)
  1 - density * (0.319381530 * k - 0.356563782 * k ^ 2 + 1.781477937 * k ^ 3
    - 1.821255978 * k ^ 4 + 1.330274429 * k ^ 5)

/-- The degree-5 polynomial of `CNDF` in the variable `k`. -/
noncomputable def hullPoly (k : ℝ) : ℝ :=
  0.319381530 * k - 0.356563782 * k ^ 2 + 1.781477937 * k ^ 3
    - 1.821255978 * k ^ 4 + 1.330274429 * k ^ 5

/-- The quantity `xLocal` of `CNDF` before it is subtracted from one, as a function of the
non-negative argument: density times polynomial. -/
noncomputable def hullTail (x : ℝ) : ℝ :=
  Real.exp (-0.5 * x ^ 2) * inv_sqrt_2xPI * hullPoly (1 / (1 + 0.2316419 * x))

/-- A call record over the real numbers, for the concrete instances below. -/
noncomputable def sampleCall : OptionData ℝ :=
  { s := 100, strike := 100, r := 0.05, divq := 0, v := 0.2, t := 1, OptionType := 'C',
    divs := 0, DGrefval := 10.4506 }

/-- The record `sampleCall` with other dividend fields and another reference value. -/
noncomputable def sampleCallOther : OptionData ℝ :=
  { s := 100, strike := 100, r := 0.05, divq := 0.03, v := 0.2, t := 1, OptionType := 'C',
    divs := 2, DGrefval := 0 }

/-- The record `sampleCall` with the unrecognised type code X. -/
noncomputable def sampleUnknown : OptionData ℝ :=
  { s := 100, strike := 100, r := 0.05, divq := 0, v := 0.2, t := 1, OptionType := 'X',
    divs := 0, DGrefval := 10.4506 }

/-- The record `sampleCall` with the type code P. -/
noncomputable def samplePut : OptionData ℝ :=
  { s := 100, strike := 100, r := 0.05, divq := 0, v := 0.2, t := 1, OptionType := 'P',
    divs := 0, DGrefval := 5.5735 }

/-- A record whose reference value is off by one from the price the driver computes for it, so
that every evaluation of it prints a diagnostic. -/
noncomputable def sampleMismatch : OptionData ℝ :=
  { sampleCall with DGrefval := recordPrice realMath sampleCall + 1 }

/-- C1: under exact arithmetic the pricer equals the closed form: with
`d1 = ((rate + 0.5*volatility^2)*time + log(spot/strike)) / (volatility*sqrt(time))`,
`d2 = d1 - volatility*sqrt(time)` and `discountedStrike = strike*exp(-rate*time)`, the result for
`otype = 0` is `spot*CNDF(d1) - discountedStrike*CNDF(d2)` and the result for `otype = 1` is
`discountedStrike*(1 - CNDF(d2)) - spot*(1 - CNDF(d1))`. -/
theorem BlkSchlsEqEuroNoDiv_closed_form (spot strike rate volatility time timet : ℝ) :
    BlkSchlsEqEuroNoDiv realMath spot strike rate volatility time 0 timet
        = spot * CNDF realMath
              (((rate + 0.5 * volatility ^ 2) * time + Real.log (spot / strike))
                / (volatility * Real.sqrt time))
          - strike * Real.exp (-rate * time) * CNDF realMath
              (((rate + 0.5 * volatility ^ 2) * time + Real.log (spot / strike))
                / (volatility * Real.sqrt time) - volatility * Real.sqrt time)
    ∧ BlkSchlsEqEuroNoDiv realMath spot strike rate volatility time 1 timet
        = strike * Real.exp (-rate * time) * (1 - CNDF realMath
              (((rate + 0.5 * volatility ^ 2) * time + Real.log (spot / strike))
                / (volatility * Real.sqrt time) - volatility * Real.sqrt time))
          - spot * (1 - CNDF realMath
              (((rate + 0.5 * volatility ^ 2) * time + Real.log (spot / strike))
                / (volatility * Real.sqrt time))) := by
  have hd : (rate + volatility * volatility * 0.5) * time
      = (rate + 0.5 * volatility ^ 2) * time := by ring
  constructor
  · simp only [BlkSchlsEqEuroNoDiv, realMath, if_true, hd]
  · simp only [BlkSchlsEqEuroNoDiv, realMath, hd]
    norm_num

/-! ### The approximation `CNDF` under exact arithmetic -/

/-- The literal `0.0` is zero. -/
theorem lit_zero : (0.0 : ℝ) = 0 := by norm_num

/-- The literal `1.0` is one. -/
theorem lit_one : (1.0 : ℝ) = 1 := by norm_num

/-- On a non-negative argument `CNDF` takes the branch `sign = 0`. -/
theorem CNDF_of_nonneg (x : ℝ) (hx : 0 ≤ x) :
    CNDF realMath x = specCNDF (Real.exp (-0.5 * x ^ 2) * inv_sqrt_2xPI) x := by
  have h : ¬ x < 0 := not_lt.mpr hx
  have he : -0.5 * x * x = -0.5 * x ^ 2 := by ring
  simp only [CNDF, specCNDF, realMath, lit_zero, lit_one, h, decide_False, if_false, he,
    Bool.false_eq_true]
  ring

/-- On a negative argument `CNDF` negates the input and returns one minus the result. -/
theorem CNDF_of_neg (x : ℝ) (hx : x < 0) :
    CNDF realMath x = 1 - specCNDF (Real.exp (-0.5 * |x| ^ 2) * inv_sqrt_2xPI) |x| := by
  have he : -0.5 * -x * -x = -0.5 * (-x) ^ 2 := by ring
  simp only [CNDF, specCNDF, realMath, lit_zero, lit_one, hx, decide_True, if_true,
    abs_of_neg hx, he]
  ring

/-- C4, as the code has it: for every real `x` other than `0`, `CNDF(-x) = 1 - CNDF(x)`
exactly. -/
theorem CNDF_neg (x : ℝ) (hx : x ≠ 0) : CNDF realMath (-x) = 1 - CNDF realMath x := by
  rcases lt_or_gt_of_ne hx with h | h
  · rw [CNDF_of_neg x h, CNDF_of_nonneg (-x) (by linarith), abs_of_neg h]
    simp
  · rw [CNDF_of_neg (-x) (by linarith), CNDF_of_nonneg x h.le, abs_of_neg (by linarith)]
    simp

/-- Witness of `CNDF_neg` at `x = 1`. -/
theorem CNDF_neg_witness : (1 : ℝ) ≠ 0 ∧ CNDF realMath (-1) = 1 - CNDF realMath 1 :=
  ⟨one_ne_zero, CNDF_neg 1 one_ne_zero⟩

/-- C4 as stated fails at `x = 0`: `CNDF(-0) = CNDF(0)` is not `1 - CNDF(0)`, because the
approximation is not exactly one half at the origin. -/
theorem CNDF_neg_zero_ne : CNDF realMath (-0) ≠ 1 - CNDF realMath 0 := by
  rw [neg_zero, CNDF_of_nonneg 0 le_rfl]
  simp only [specCNDF, inv_sqrt_2xPI]
  norm_num

/-- C6: `CNDF(0)` is one minus `inv_sqrt_2xPI` times the sum of the five coefficients, and lies
within `1e-7` of one half. -/
theorem CNDF_zero_near_half :
    CNDF realMath 0
      = 1 - inv_sqrt_2xPI
          * (0.319381530 + (-0.356563782) + 1.781477937 + (-1.821255978) + 1.330274429)
    ∧ |CNDF realMath 0 - 0.5| ≤ 1e-7 := by
  rw [CNDF_of_nonneg 0 le_rfl]
  simp only [specCNDF, inv_sqrt_2xPI]
  norm_num [abs_le]

/-! ### Monotonicity of `CNDF` -/

/-- The value of `CNDF` on a non-negative argument, through `hullTail`. -/
theorem CNDF_nonneg_eq_tail (x : ℝ) (hx : 0 ≤ x) : CNDF realMath x = 1 - hullTail x := by
  rw [CNDF_of_nonneg x hx]
  simp only [specCNDF, hullTail, hullPoly]

/-- The value of `CNDF` on a negative argument, through `hullTail`. -/
theorem CNDF_neg_eq_tail (x : ℝ) (hx : x < 0) : CNDF realMath x = hullTail (-x) := by
  rw [CNDF_of_neg x hx, abs_of_neg hx]
  simp only [specCNDF, hullTail, hullPoly]
  ring

/-- The derivative of the polynomial is positive everywhere, so the polynomial is monotone. -/
theorem hullPoly_monotone : Monotone hullPoly := by
  have hd : ∀ k : ℝ, HasDerivAt hullPoly
      (0.319381530 - 0.356563782 * (2 * k) + 1.781477937 * (3 * k ^ 2)
        - 1.821255978 * (4 * k ^ 3) + 1.330274429 * (5 * k ^ 4)) k := by
    intro k
    have h1 := (hasDerivAt_id k).const_mul (0.319381530 : ℝ)
    have h2 := (hasDerivAt_pow 2 k).const_mul (0.356563782 : ℝ)
    have h3 := (hasDerivAt_pow 3 k).const_mul (1.781477937 : ℝ)
    have h4 := (hasDerivAt_pow 4 k).const_mul (1.821255978 : ℝ)
    have h5 := (hasDerivAt_pow 5 k).const_mul (1.330274429 : ℝ)
    have h := (((h1.sub h2).add h3).sub h4).add h5
    refine (h.congr_deriv ?_).congr_of_eventuallyEq (Filter.Eventually.of_forall ?_)
    · norm_num
    · intro y
      simp [hullPoly]
  refine monotone_of_deriv_nonneg (fun k => (hd k).differentiableAt) (fun k => ?_)
  rw [(hd k).deriv]
  nlinarith [sq_nonneg (2 * 6.651372145 * k ^ 2 - 7.285023912 * k), sq_nonneg (k - 0.11),
    sq_nonneg k]

/-- The polynomial is non-negative on non-negative arguments. -/
theorem hullPoly_nonneg (k : ℝ) (hk : 0 ≤ k) : 0 ≤ hullPoly k := by
  have h := hullPoly_monotone hk
  have h0 : hullPoly 0 = 0 := by simp [hullPoly]
  linarith

/-- The density-times-polynomial term is non-negative on non-negative arguments. -/
theorem hullTail_nonneg (x : ℝ) (hx : 0 ≤ x) : 0 ≤ hullTail x := by
  have hk : (0 : ℝ) ≤ 1 / (1 + 0.2316419 * x) := by positivity
  have hc : (0 : ℝ) ≤ inv_sqrt_2xPI := by norm_num [inv_sqrt_2xPI]
  have hp := hullPoly_nonneg _ hk
  have he := (Real.exp_pos (-0.5 * x ^ 2)).le
  exact mul_nonneg (mul_nonneg he hc) hp

/-- The density-times-polynomial term decreases on the non-negative half line. -/
theorem hullTail_antitone (x y : ℝ) (hx : 0 ≤ x) (hxy : x ≤ y) : hullTail y ≤ hullTail x := by
  have hy : 0 ≤ y := hx.trans hxy
  have hc : (0 : ℝ) ≤ inv_sqrt_2xPI := by norm_num [inv_sqrt_2xPI]
  have hky : (0 : ℝ) ≤ 1 / (1 + 0.2316419 * y) := by positivity
  have hk : 1 / (1 + 0.2316419 * y) ≤ 1 / (1 + 0.2316419 * x) := by
    apply one_div_le_one_div_of_le (by positivity)
    linarith
  have hp : hullPoly (1 / (1 + 0.2316419 * y)) ≤ hullPoly (1 / (1 + 0.2316419 * x)) :=
    hullPoly_monotone hk
  have he : Real.exp (-0.5 * y ^ 2) ≤ Real.exp (-0.5 * x ^ 2) := by
    apply Real.exp_le_exp.mpr
    nlinarith
  have hd : Real.exp (-0.5 * y ^ 2) * inv_sqrt_2xPI ≤ Real.exp (-0.5 * x ^ 2) * inv_sqrt_2xPI :=
    mul_le_mul_of_nonneg_right he hc
  exact mul_le_mul hd hp (hullPoly_nonneg _ hky)
    (mul_nonneg (Real.exp_pos _).le hc)

/-- At the origin the density-times-polynomial term is below one half. -/
theorem hullTail_zero_le_half : hullTail 0 ≤ 1 / 2 := by
  simp only [hullTail, hullPoly, inv_sqrt_2xPI]
  norm_num

/-- On the non-negative half line the density-times-polynomial term is at most one half. -/
theorem hullTail_le_half (x : ℝ) (hx : 0 ≤ x) : hullTail x ≤ 1 / 2 :=
  (hullTail_antitone 0 x le_rfl hx).trans hullTail_zero_le_half

/-- The field `exp` of `realMath`. -/
theorem realMath_exp (x : ℝ) : realMath.exp x = Real.exp x := rfl

/-- The field `log` of `realMath`. -/
theorem realMath_log (x : ℝ) : realMath.log x = Real.log x := rfl

/-- The field `sqrt` of `realMath`. -/
theorem realMath_sqrt (x : ℝ) : realMath.sqrt x = Real.sqrt x := rfl

/-- Two-sided Taylor enclosure of the exponential on `[-1, 1]`, with six terms. -/
theorem exp_taylor6 (x : ℝ) (hx : |x| ≤ 1) :
    1 + x + x ^ 2 / 2 + x ^ 3 / 6 + x ^ 4 / 24 + x ^ 5 / 120 - x ^ 6 * (7 / 4320) ≤ Real.exp x
    ∧ Real.exp x ≤ 1 + x + x ^ 2 / 2 + x ^ 3 / 6 + x ^ 4 / 24 + x ^ 5 / 120
        + x ^ 6 * (7 / 4320) := by
  have h := Real.exp_bound hx (show 0 < 6 by norm_num)
  simp only [Finset.sum_range_succ, Finset.sum_range_zero, Nat.factorial] at h
  have h6 : |x| ^ 6 = x ^ 6 := by
    rw [show |x| ^ 6 = (|x| ^ 2) ^ 3 by ring, sq_abs]
    ring
  rw [h6, abs_le] at h
  norm_num at h
  constructor <;> linarith [h.1, h.2]

/-- C7: for spot = 100, strike = 100, rate = 0.05, volatility = 0.2, time = 1.0 and a CALL
(`otype = 0`), where `d1 = 0.35` and `d2 = 0.15`, the price computed under exact arithmetic lies
within `1e-4` of `10.4506`. -/
theorem reference_call_price :
    |BlkSchlsEqEuroNoDiv realMath 100 100 0.05 0.2 1.0 0 0 - 10.4506| ≤ 1e-4 := by
  have h1 := exp_taylor6 (-49 / 800) (by norm_num [abs_le])
  have h2 := exp_taylor6 (-9 / 800) (by norm_num [abs_le])
  have h3 := exp_taylor6 (-1 / 20) (by norm_num [abs_le])
  norm_num at h1 h2 h3
  have hs : Real.sqrt (1.0 : ℝ) = 1 := by rw [lit_one]; exact Real.sqrt_one
  have hl : Real.log ((100 : ℝ) / 100) = 0 := by norm_num
  have hd1 : ((0.05 + 0.2 * 0.2 * 0.5) * 1.0 + 0) / (0.2 * 1) = (0.35 : ℝ) := by norm_num
  have hd2 : (0.35 : ℝ) - 0.2 * 1 = 0.15 := by norm_num
  simp only [BlkSchlsEqEuroNoDiv, realMath_exp, realMath_log, realMath_sqrt, if_true, hs, hl,
    hd1, hd2]
  rw [CNDF_nonneg_eq_tail 0.35 (by norm_num), CNDF_nonneg_eq_tail 0.15 (by norm_num)]
  simp only [hullTail, hullPoly, inv_sqrt_2xPI]
  norm_num
  have hp_lo := mul_le_mul h3.1 h2.1 (by norm_num) (Real.exp_pos (-(1 / 20))).le
  have hp_hi := mul_le_mul h3.2 h2.2 (Real.exp_pos (-(9 / 800))).le (by norm_num)
  rw [abs_le]
  constructor <;> linarith [h1.1, h1.2, h3.1, h3.2]

/-! ### Expansion of the seed table -/

/-- Invariant of the initialisation loop: started at counter `i` with `k` iterations left on an
array long enough, it terminates normally, leaves the seed table, the log and the output alone,
and overwrites exactly the slots `i, ..., i + k - 1`, slot `p` with seed record
`p mod seedSize`. -/
theorem forLoop_initBody {fptype : Type} (seed : List (OptionData fptype)) (hs : seed ≠ []) :
    ∀ (k i : Nat) (st : State fptype), st.data_init = seed → i + k ≤ st.optionData.length →
      ∃ st1, forLoop initBody i k st = some st1 ∧ st1.data_init = seed ∧
        st1.optionData.length = st.optionData.length ∧ st1.calls = st.calls ∧
        st1.stdout = st.stdout ∧
        ∀ p, st1.optionData[p]?
          = if i ≤ p ∧ p < i + k then seed[p % seed.length]? else st.optionData[p]? := by
  have hlen : 0 < seed.length := List.length_pos.mpr hs
  intro k
  induction k with
  | zero =>
    intro i st hd _
    refine ⟨st, rfl, hd, rfl, rfl, rfl, fun p => ?_⟩
    have : ¬ (i ≤ p ∧ p < i + 0) := by omega
    rw [if_neg this]
  | succ k ih =>
    intro i st hd hik
    have hi : i < st.optionData.length := by omega
    have hmod : i % seed.length < seed.length := Nat.mod_lt _ hlen
    have hget : seed[i % seed.length]? = some (seed[i % seed.length]) :=
      List.getElem?_eq_getElem hmod
    have hbody : initBody i st
        = some { st with optionData := st.optionData.set i (seed[i % seed.length]) } := by
      simp only [initBody, hd, hget, hi, if_true]
      simp [Nat.ne_of_gt hlen]
    obtain ⟨st1, h1, h2, h3, h4, h5, h6⟩ :=
      ih (i + 1) { st with optionData := st.optionData.set i (seed[i % seed.length]) } hd
        (by simp only [List.length_set]; omega)
    refine ⟨st1, ?_, h2, ?_, h4, h5, fun p => ?_⟩
    · simp only [forLoop, hbody, h1]
    · simpa using h3
    · rw [h6 p]
      simp only [List.getElem?_set]
      by_cases hp : i = p
      · subst hp
        have : ¬ (i + 1 ≤ i ∧ i < i + 1 + k) := by omega
        simp [this, hi, hget]
      · by_cases hq : i + 1 ≤ p ∧ p < i + 1 + k
        · have : i ≤ p ∧ p < i + (k + 1) := by omega
          simp [hq, this]
        · have : ¬ (i ≤ p ∧ p < i + (k + 1)) := by omega
          simp [hq, this, hp]

/-- C8: for every non-empty seed table and every target count `n`, the initialisation loop
terminates normally, the expanded array has exactly `n` elements, its element `i` is seed element
`i mod seedSize` for every `i < n`, and the seed table is unchanged. -/
theorem expand_tiles_seed {fptype : Type} (seed : List (OptionData fptype))
    (junk : Nat → OptionData fptype) (n : Nat) (hs : seed ≠ []) :
    ∃ st, expand n (allocate seed n junk) = some st ∧ st.optionData.length = n ∧
      (∀ i, i < n → ∃ d, seed[i % seed.length]? = some d ∧ st.optionData[i]? = some d) ∧
      st.data_init = seed := by
  obtain ⟨st, h1, h2, h3, _, _, h6⟩ :=
    forLoop_initBody seed hs n 0 (allocate seed n junk) rfl (by simp [allocate])
  refine ⟨st, h1, ?_, fun i hi => ?_, h2⟩
  · simpa [allocate] using h3
  · have hmod : i % seed.length < seed.length := Nat.mod_lt _ (List.length_pos.mpr hs)
    refine ⟨seed[i % seed.length], List.getElem?_eq_getElem hmod, ?_⟩
    rw [h6 i]
    have : 0 ≤ i ∧ i < 0 + n := by omega
    rw [if_pos this]
    exact List.getElem?_eq_getElem hmod

/-- Witness of `expand_tiles_seed` on a seed table of two records and a target count of five. -/
theorem expand_tiles_seed_witness :
    sampleSeed ≠ [] ∧
    ∃ st, expand 5 (allocate sampleSeed 5 sampleJunk) = some st ∧ st.optionData.length = 5 ∧
      (∀ i, i < 5 → ∃ d, sampleSeed[i % sampleSeed.length]? = some d
        ∧ st.optionData[i]? = some d) ∧
      st.data_init = sampleSeed :=
  ⟨by simp [sampleSeed], expand_tiles_seed sampleSeed sampleJunk 5 (by simp [sampleSeed])⟩

/-! ### The processing loops and the validation -/

section DriverTheorems

variable {fptype : Type} [LinearOrderedField fptype]

/-- One execution of the `ERR_CHK` block appends the outcome `specDiag` to the output. -/
theorem errChk_eq (m : CMath fptype) (o : OptionData fptype) (j : Nat)
    (out : List (Diag fptype)) :
    errChk j (recordPrice m o) o.DGrefval out = out ++ (specDiag m o j).toList := by
  unfold errChk specDiag
  by_cases h : |o.DGrefval - recordPrice m o| ≥ 1e-4
  · simp [h]
  · simp [h]

/-- Invariant of the inner loop: for a record index `i` inside the array, started at repetition
`j` with `k` repetitions left, the loop terminates normally, leaves the arrays alone, logs the
evaluations `(i, j), ..., (i, j + k - 1)` in this order and appends their outcomes to the
output. -/
theorem forLoop_priceBody (m : CMath fptype) (i : Nat) (o : OptionData fptype) :
    ∀ (k j : Nat) (st : State fptype), st.optionData[i]? = some o →
      ∃ st1, forLoop (priceBody m i) j k st = some st1 ∧ st1.data_init = st.data_init ∧
        st1.optionData = st.optionData ∧
        st1.calls = st.calls ++ (List.range' j k).map (fun j1 => (i, j1)) ∧
        st1.stdout = st.stdout ++ (List.range' j k).filterMap (fun j1 => specDiag m o j1) := by
  intro k
  induction k with
  | zero =>
    intro j st _
    exact ⟨st, rfl, rfl, rfl, by simp, by simp⟩
  | succ k ih =>
    intro j st ho
    obtain ⟨st1, h1, h2, h3, h4, h5⟩ :=
      ih (j + 1) { st with calls := st.calls ++ [(i, j)],
                           stdout := errChk j (recordPrice m o) o.DGrefval st.stdout } ho
    refine ⟨st1, ?_, h2, h3, ?_, ?_⟩
    · simp only [forLoop, priceBody, ho, h1]
    · rw [h4]
      simp [List.range'_succ]
    · rw [h5, errChk_eq]
      cases hs : specDiag m o j <;> simp [List.range'_succ, hs]

/-- The number of pairs of a record index among `k` and a repetition among `runs`. -/
theorem length_pairs (runs : Nat) : ∀ (k i : Nat),
    ((List.range' i k).flatMap (fun i1 => (List.range runs).map (fun j => (i1, j)))).length
      = k * runs := by
  intro k
  induction k with
  | zero => intro i; simp
  | succ k ih =>
    intro i
    simp only [List.range'_succ, List.flatMap_cons, List.length_append, List.length_map,
      List.length_range, ih (i + 1)]
    ring

/-- Invariant of the outer loop: started at record index `i` with `k` records left inside the
array `ws`, the processing loops terminate normally, leave the arrays alone, log the evaluations
of the records `i, ..., i + k - 1`, each with all its repetitions, and append to the output the
outcomes of the logged evaluations, in the order of the log. -/
theorem forLoop_timedPass (m : CMath fptype) (runs : Nat) (ws : List (OptionData fptype)) :
    ∀ (k i : Nat) (st : State fptype), st.optionData = ws → i + k ≤ ws.length →
      ∃ st1, forLoop (fun i1 s => forLoop (priceBody m i1) 0 runs s) i k st = some st1 ∧
        st1.data_init = st.data_init ∧ st1.optionData = ws ∧
        st1.calls = st.calls
          ++ (List.range' i k).flatMap (fun i1 => (List.range runs).map (fun j => (i1, j))) ∧
        st1.stdout = st.stdout
          ++ ((List.range' i k).flatMap (fun i1 => (List.range runs).map (fun j => (i1, j)))).filterMap
              (fun c => (ws[c.1]?).bind (fun o => specDiag m o c.2)) := by
  intro k
  induction k with
  | zero =>
    intro i st hw _
    exact ⟨st, rfl, rfl, hw, by simp, by simp⟩
  | succ k ih =>
    intro i st hw hik
    have hi : i < ws.length := by omega
    have ho : ws[i]? = some ws[i] := List.getElem?_eq_getElem hi
    obtain ⟨st2, g1, g2, g3, g4, g5⟩ :=
      forLoop_priceBody m i ws[i] runs 0 st (by rw [hw]; exact ho)
    obtain ⟨st1, h1, h2, h3, h4, h5⟩ := ih (i + 1) st2 (by rw [g3, hw]) (by omega)
    have hf : (List.range' 0 runs).filterMap (fun j1 => specDiag m ws[i] j1)
        = ((List.range runs).map (fun j => (i, j))).filterMap
            (fun c => (ws[c.1]?).bind (fun o => specDiag m o c.2)) := by
      rw [List.filterMap_map, List.range_eq_range']
      congr 1
      funext j
      simp [ho]
    refine ⟨st1, ?_, by rw [h2, g2], h3, ?_, ?_⟩
    · simp only [forLoop, g1, h1]
    · rw [h4, g4, List.range_eq_range']
      simp [List.range'_succ]
    · rw [h5, g5, hf]
      simp [List.range'_succ]

/-- C9: on every working set `ws` and for every number of repetitions, the processing loops run
to completion; the pricer is evaluated on every record for every repetition (the log holds every
pair of a record index and a repetition); and the diagnostics printed are exactly the outcomes
`specDiag` of the logged evaluations, in the order of the log: a diagnostic with
(`j`, computed price, reference price, `delta = referencePrice - computedPrice`) for an
evaluation if and only if `abs(delta) >= 1e-4`. -/
theorem timedPass_validation (m : CMath fptype) (seed ws : List (OptionData fptype))
    (runs : Nat) :
    ∃ st, timedPass m ws.length runs
          { data_init := seed, optionData := ws, calls := [], stdout := [] } = some st ∧
      (∀ i j, i < ws.length → j < runs → (i, j) ∈ st.calls) ∧
      st.calls.length = ws.length * runs ∧
      st.stdout = st.calls.filterMap (fun c => (ws[c.1]?).bind (fun o => specDiag m o c.2)) ∧
      (∀ o j, (∃ d, specDiag m o j = some d) ↔ |o.DGrefval - recordPrice m o| ≥ 1e-4) ∧
      (∀ o j d, specDiag m o j = some d →
        d = { j := j, Computed := recordPrice m o, Ref := o.DGrefval,
              Delta := o.DGrefval - recordPrice m o }) := by
  obtain ⟨st, h1, _, _, h4, h5⟩ :=
    forLoop_timedPass m runs ws ws.length 0
      { data_init := seed, optionData := ws, calls := [], stdout := [] } rfl (by omega)
  simp only [List.nil_append] at h4 h5
  refine ⟨st, h1, ?_, ?_, ?_, ?_, ?_⟩
  · intro i j hi hj
    rw [h4]
    simp only [List.mem_flatMap, List.mem_map, List.mem_range', List.mem_range]
    exact ⟨i, ⟨i, by omega, by omega⟩, j, hj, rfl⟩
  · rw [h4, length_pairs]
  · rw [h5, h4]
  · intro o j
    unfold specDiag
    by_cases h : |o.DGrefval - recordPrice m o| ≥ 1e-4
    · simp [h]
    · simp [h]
  · intro o j d hd
    unfold specDiag at hd
    by_cases h : |o.DGrefval - recordPrice m o| ≥ 1e-4
    · simp only [h, if_true, Option.some.injEq] at hd
      exact hd.symm
    · simp [h] at hd

end DriverTheorems

section PriceInputs

variable {fptype : Type} [LinearOrderedField fptype]

/-- C12: the price the driver computes for a record depends only on spot, strike, rate,
volatility, time and option type: two records that agree on these six fields, whatever their
`divq`, `divs` and `DGrefval`, get the same price; and the argument `timet` of the pricer does
not affect its result. -/
theorem recordPrice_six_fields (m : CMath fptype) (o1 o2 : OptionData fptype)
    (hs : o1.s = o2.s) (hk : o1.strike = o2.strike) (hr : o1.r = o2.r) (hv : o1.v = o2.v)
    (ht : o1.t = o2.t) (hty : o1.OptionType = o2.OptionType) :
    recordPrice m o1 = recordPrice m o2
    ∧ ∀ (sptprice strike rate volatility time : fptype) (otype : Int) (timet1 timet2 : fptype),
        BlkSchlsEqEuroNoDiv m sptprice strike rate volatility time otype timet1
          = BlkSchlsEqEuroNoDiv m sptprice strike rate volatility time otype timet2 := by
  constructor
  · simp only [recordPrice, hs, hk, hr, hv, ht, hty]
  · intro sptprice strike rate volatility time otype timet1 timet2
    rfl

/-- C13: a record whose type code is any character other than P is priced with the CALL
formula (`otype = 0`), exactly as the same record with the type code C; the type code P, and
only it, selects the PUT formula (`otype = 1`). -/
theorem recordPrice_default_call (m : CMath fptype) (o : OptionData fptype) :
    (o.OptionType ≠ 'P' →
      recordPrice m o = recordPrice m { o with OptionType := 'C' }
      ∧ recordPrice m o = BlkSchlsEqEuroNoDiv m o.s o.strike o.r o.v o.t 0 0)
    ∧ (o.OptionType = 'P' →
      recordPrice m o = BlkSchlsEqEuroNoDiv m o.s o.strike o.r o.v o.t 1 0) := by
  refine ⟨fun h => ⟨?_, ?_⟩, fun h => ?_⟩
  · have hc : ('C' : Char) ≠ 'P' := by decide
    simp only [recordPrice, h, hc, if_false]
  · simp only [recordPrice, h, if_false]
  · simp only [recordPrice, h, if_true]

end PriceInputs

/-- Witness of `recordPrice_six_fields`: two records that differ in `divq`, `divs` and
`DGrefval` only, and two values of `timet`. -/
theorem recordPrice_six_fields_witness :
    recordPrice realMath sampleCall = recordPrice realMath sampleCallOther
    ∧ BlkSchlsEqEuroNoDiv realMath 100 100 0.05 0.2 1 0 0
        = BlkSchlsEqEuroNoDiv realMath 100 100 0.05 0.2 1 0 7 :=
  ⟨(recordPrice_six_fields realMath sampleCall sampleCallOther rfl rfl rfl rfl rfl rfl).1,
   (recordPrice_six_fields realMath sampleCall sampleCallOther rfl rfl rfl rfl rfl rfl).2
      100 100 0.05 0.2 1 0 0 7⟩

/-- Witness of `recordPrice_default_call`: the type code X is priced as a call, the type code P
as a put. -/
theorem recordPrice_default_call_witness :
    (recordPrice realMath sampleUnknown
        = recordPrice realMath { sampleUnknown with OptionType := 'C' }
      ∧ recordPrice realMath sampleUnknown
        = BlkSchlsEqEuroNoDiv realMath sampleUnknown.s sampleUnknown.strike sampleUnknown.r
            sampleUnknown.v sampleUnknown.t 0 0)
    ∧ recordPrice realMath samplePut
        = BlkSchlsEqEuroNoDiv realMath samplePut.s samplePut.strike samplePut.r samplePut.v
            samplePut.t 1 0 :=
  ⟨(recordPrice_default_call realMath sampleUnknown).1 (by simp [sampleUnknown]),
   (recordPrice_default_call realMath samplePut).2 (by simp [samplePut])⟩

/-! ### Range and homogeneity -/

/-- C15: under exact arithmetic `CNDF` returns a probability: `0 <= CNDF(x) <= 1` for every
real `x`. -/
theorem CNDF_mem_unit_interval (x : ℝ) : 0 ≤ CNDF realMath x ∧ CNDF realMath x ≤ 1 := by
  rcases lt_or_le x 0 with hx | hx
  · rw [CNDF_neg_eq_tail x hx]
    have h1 := hullTail_nonneg (-x) (by linarith)
    have h2 := hullTail_le_half (-x) (by linarith)
    constructor <;> linarith
  · rw [CNDF_nonneg_eq_tail x hx]
    have h1 := hullTail_nonneg x hx
    have h2 := hullTail_le_half x hx
    constructor <;> linarith

/-- C14, as the code has it: for every repetition count and every working set the pass is
record-major: the outer loop runs over the records in index order and, for each record, the inner
loop runs over all repetitions, so the evaluations happen in the order
(record 0, repetition 0), (record 0, repetition 1), ..., (record 1, repetition 0), ...,
and the diagnostics are printed in that order. -/
theorem timedPass_record_major {fptype : Type} [LinearOrderedField fptype] (m : CMath fptype)
    (seed ws : List (OptionData fptype)) (runs : Nat) :
    ∃ st, timedPass m ws.length runs
          { data_init := seed, optionData := ws, calls := [], stdout := [] } = some st ∧
      st.calls
        = (List.range ws.length).flatMap (fun i => (List.range runs).map (fun j => (i, j))) ∧
      st.stdout = st.calls.filterMap (fun c => (ws[c.1]?).bind (fun o => specDiag m o c.2)) := by
  obtain ⟨st, h1, _, _, h4, h5⟩ :=
    forLoop_timedPass m runs ws ws.length 0
      { data_init := seed, optionData := ws, calls := [], stdout := [] } rfl (by omega)
  simp only [List.nil_append] at h4 h5
  refine ⟨st, h1, ?_, ?_⟩
  · rw [h4]
    simp only [List.range_eq_range']
  · rw [h5, h4]

/-- The record `sampleMismatch` always fails the validation. -/
theorem specDiag_sampleMismatch (j : Nat) :
    specDiag realMath sampleMismatch j
      = some { j := j, Computed := recordPrice realMath sampleCall,
               Ref := recordPrice realMath sampleCall + 1,
               Delta := recordPrice realMath sampleCall + 1 - recordPrice realMath sampleCall } := by
  have hp : recordPrice realMath sampleMismatch = recordPrice realMath sampleCall := rfl
  have hr : sampleMismatch.DGrefval = recordPrice realMath sampleCall + 1 := rfl
  have hd : |recordPrice realMath sampleCall + 1 - recordPrice realMath sampleCall| ≥ 1e-4 := by
    rw [add_sub_cancel_left]
    norm_num
  simp only [specDiag, hp, hr, hd, if_true]

/-- C14 as stated fails for two records and two repetitions: the evaluations happen in the order
(record 0, repetition 0), (record 0, repetition 1), (record 1, repetition 0),
(record 1, repetition 1), which is not the repetition-major order, and the repetition indices
of the printed diagnostics are 0, 1, 0, 1 instead of 0, 0, 1, 1. -/
theorem timedPass_not_repetition_major :
    ∃ st, timedPass realMath 2 2
          { data_init := [], optionData := [sampleMismatch, sampleMismatch], calls := [],
            stdout := [] } = some st ∧
      st.calls = [(0, 0), (0, 1), (1, 0), (1, 1)] ∧
      st.calls ≠ (List.range 2).flatMap (fun j => (List.range 2).map (fun i => (i, j))) ∧
      st.stdout.map Diag.j = [0, 1, 0, 1] := by
  obtain ⟨st, h1, _, _, h4, h5⟩ :=
    forLoop_timedPass realMath 2 [sampleMismatch, sampleMismatch] 2 0
      { data_init := [], optionData := [sampleMismatch, sampleMismatch], calls := [],
        stdout := [] } rfl (by simp)
  have hc : st.calls = [(0, 0), (0, 1), (1, 0), (1, 1)] := by
    rw [h4]
    decide
  refine ⟨st, h1, hc, ?_, ?_⟩
  · rw [hc]
    decide
  · rw [h5]
    have hl : (List.range' 0 2).flatMap (fun i1 => (List.range 2).map (fun j => (i1, j)))
        = [(0, 0), (0, 1), (1, 0), (1, 1)] := by decide
    have g0 : [sampleMismatch, sampleMismatch][0]? = some sampleMismatch := rfl
    have g1 : [sampleMismatch, sampleMismatch][1]? = some sampleMismatch := rfl
    simp only [hl, List.nil_append, List.filterMap_cons, List.filterMap_nil, g0, g1,
      Option.some_bind, specDiag_sampleMismatch, List.map_cons, List.map_nil]

/-! ### The error of `CNDF` against the normal distribution function -/

section NormalError

open MeasureTheory ProbabilityTheory

end NormalError

end BlackScholes
